import Mathlib

/-!
Verification of the public character-card codec and ingestion pipeline of
this repository (the public-characters router in
`src/src/middleware/chatTracker.js`, together with the container codec it
calls).  JavaScript values are embedded as an explicit `Json` inductive,
and machine side effects (image decoding, the temp-file lifecycle, the
artifact store) are threaded explicitly as state or supplied as oracle
functions quantified in the theorems.
-/

set_option autoImplicit false

/-- JSON / JavaScript value model.  Numbers are rationals (the only
non-integral literal in scope is `talkativeness: 0.5`); no claim depends
on IEEE float behaviour. -/
inductive Json where
  | null
  | bool (b : Bool)
  | num (q : Rat)
  | str (s : String)
  | arr (elems : List Json)
  | obj (fields : List (String × Json))

/-- A JavaScript object: an insertion-ordered association list. -/
abbrev JObj := List (String × Json)

/-- JavaScript truthiness of a value. -/
def jsTruthy : Json → Bool
  | .null => false
  | .bool b => b
  | .num q => q != 0
  | .str s => s != ""
  | .arr _ => true
  | .obj _ => true

/-- Truthiness of a possibly-undefined value (`none` models `undefined`). -/
def jsTruthyOpt : Option Json → Bool
  | none => false
  | some v => jsTruthy v

/-- Generic association-list lookup (first match), used for JS objects and
for the on-disk store. -/
def findVal {α : Type} : List (String × α) → String → Option α
  | [], _ => none
  | (k, v) :: rest, key => if k = key then some v else findVal rest key

/-- Lookup `obj[key]` on a JS object (`none` is `undefined`). -/
def getK (l : JObj) (key : String) : Option Json := findVal l key

/-- Field presence, `obj.key !== undefined` (`obj.key !== undefined` for our values). -/
def hasK (l : JObj) (key : String) : Bool := (getK l key).isSome

/-- Assignment `obj[key] = v`: replaces the value in place at the (first) occurrence
of the key, appends otherwise — JS property-assignment order semantics
(JS objects have unique keys, so first-occurrence replacement is exact). -/
def setK : JObj → String → Json → JObj
  | [], key, v => [(key, v)]
  | (k, w) :: rest, key, v =>
    if k = key then (key, v) :: rest else (k, w) :: setK rest key v

/-- Deletion `delete obj[key]`. -/
def delK (l : JObj) (key : String) : JObj := l.filter (fun p => p.1 ≠ key)

/-- JS `a || b` on a possibly-undefined left operand. -/
def jsOrJ (o : Option Json) (d : Json) : Json :=
  match o with
  | some v => if jsTruthy v then v else d
  | none => d

/-- JS `a ?? b` (nullish coalescing) on a possibly-undefined left operand. -/
def jsNullish (o : Option Json) (d : Json) : Json :=
  match o with
  | some .null => d
  | some v => v
  | none => d

/-- Property access `v[key]` for a non-null receiver: objects look the key
up, every other receiver yields `undefined` for the keys used here. -/
def jAccess : Json → String → Option Json
  | .obj l, key => getK l key
  | _, _ => none

/-- JS strict equality `v === s` against a string. -/
def jsStrictEqStr : Json → String → Bool
  | .str t, s => t = s
  | _, _ => false

theorem findVal_append_of_none {α : Type} (l₁ l₂ : List (String × α)) (k : String)
    (h : findVal l₁ k = none) : findVal (l₁ ++ l₂) k = findVal l₂ k := by
  induction l₁ with
  | nil => simp
  | cons p rest ih =>
    obtain ⟨pk, pv⟩ := p
    by_cases hp : pk = k
    · simp [findVal, hp] at h
    · simp only [findVal, hp, if_false, List.cons_append] at h ⊢
      exact ih h

theorem getK_setK_self (l : JObj) (k : String) (v : Json) :
    getK (setK l k v) k = some v := by
  induction l with
  | nil => simp [setK, getK, findVal]
  | cons p rest ih =>
    obtain ⟨pk, pv⟩ := p
    by_cases hp : pk = k
    · simp [setK, getK, findVal, hp]
    · simpa [setK, getK, findVal, hp] using ih

theorem getK_setK_of_ne (l : JObj) (k k' : String) (v : Json) (h : k' ≠ k) :
    getK (setK l k v) k' = getK l k' := by
  induction l with
  | nil => simp [setK, getK, findVal, Ne.symm h]
  | cons p rest ih =>
    obtain ⟨pk, pv⟩ := p
    by_cases hp : pk = k
    · simp [setK, getK, findVal, hp, Ne.symm h]
    · by_cases hpk : pk = k'
      · simp [setK, getK, findVal, hp, hpk, h]
      · simpa [setK, getK, findVal, hp, hpk] using ih

theorem getK_delK_self (l : JObj) (k : String) : getK (delK l k) k = none := by
  induction l with
  | nil => rfl
  | cons p rest ih =>
    obtain ⟨pk, pv⟩ := p
    by_cases hp : pk = k
    · simpa [delK, List.filter_cons, hp] using ih
    · simpa [delK, List.filter_cons, hp, getK, findVal] using ih

theorem getK_delK_of_ne (l : JObj) (k k' : String) (h : k' ≠ k) :
    getK (delK l k) k' = getK l k' := by
  induction l with
  | nil => rfl
  | cons p rest ih =>
    obtain ⟨pk, pv⟩ := p
    by_cases hp : pk = k
    · simpa [delK, List.filter_cons, hp, getK, findVal, Ne.symm h] using ih
    · by_cases hpk : pk = k'
      · simp [delK, List.filter_cons, hp, getK, findVal, hpk, h]
      · simpa [delK, List.filter_cons, hp, getK, findVal, hpk] using ih

/-! ### File-name sanitization (`getPngName`, router lines 362-367)

`getPngName` first applies the `sanitize-filename` npm dependency (default
empty replacement) and then replaces every character outside ASCII
alphanumerics and the CJK ideograph block U+4E00-U+9FFF with an
underscore. -/

/-- Characters removed by the `sanitize-filename` illegal-character pass. -/
def isIllegalFileChar (c : Char) : Bool :=
  c = '/' || c = '?' || c = '<' || c = '>' || c = '\\' ||
  c = ':' || c = '*' || c = '|' || c = '\"'

/-- Characters removed by the `sanitize-filename` control-character pass
(U+0000-U+001F and U+0080-U+009F). -/
def isFileControlChar (c : Char) : Bool :=
  c.toNat ≤ 0x1f || (0x80 ≤ c.toNat && c.toNat ≤ 0x9f)

/-- ASCII lowercasing, matching the case-insensitive flag of the reserved
device-name test (the device names are ASCII). -/
def lowerAscii (c : Char) : Char :=
  if 'A' ≤ c && c ≤ 'Z' then Char.ofNat (c.toNat + 32) else c

/-- Windows reserved device names tested by `sanitize-filename`. -/
def windowsDeviceNames : List String :=
  ["con", "prn", "aux", "nul",
   "com0", "com1", "com2", "com3", "com4", "com5", "com6", "com7", "com8", "com9",
   "lpt0", "lpt1", "lpt2", "lpt3", "lpt4", "lpt5", "lpt6", "lpt7", "lpt8", "lpt9"]

/-- Whether the string matches a device name, optionally followed by a dot
and anything (the anchored case-insensitive reserved-name test). -/
def matchesDeviceName (l : List Char) (nm : String) : Bool :=
  let low := l.map lowerAscii
  low = nm.data || (nm.data ++ ['.']).isPrefixOf low

def isWindowsReservedName (l : List Char) : Bool :=
  windowsDeviceNames.any (matchesDeviceName l)

/-- The dot-only reserved-name test (anchored, at least one dot). -/
def isAllDots (l : List Char) : Bool := !l.isEmpty && l.all (· = '.')

def isDotOrSpace (c : Char) : Bool := c = '.' || c = ' '

/-- Strip trailing dots and spaces. -/
def dropTrailingJunk (l : List Char) : List Char :=
  (l.reverse.dropWhile isDotOrSpace).reverse

/-- Byte length of one character in UTF-8. -/
def charUtf8Len (c : Char) : Nat :=
  if c.toNat < 0x80 then 1
  else if c.toNat < 0x800 then 2
  else if c.toNat < 0x10000 then 3
  else 4

def utf8Len (l : List Char) : Nat := (l.map charUtf8Len).sum

/-- Truncation to a UTF-8 byte budget without splitting a character
(`truncate-utf8-bytes`, as used by `sanitize-filename` with budget 255). -/
def truncBytes : List Char → Nat → List Char
  | [], _ => []
  | c :: rest, budget =>
    if charUtf8Len c ≤ budget then c :: truncBytes rest (budget - charUtf8Len c)
    else []

/-- The characters surviving the two character-removal passes of
`sanitize-filename`. -/
def pngFilteredChars (l : List Char) : List Char :=
  (l.filter (fun c => !isIllegalFileChar c)).filter (fun c => !isFileControlChar c)

/-- The npm `sanitize-filename` dependency with its default empty
replacement, exactly as called by the router (`getPngName`,
`importFromYaml`, `importFromPng`): remove illegal then control
characters, blank a dot-only name, blank a Windows reserved device name,
strip trailing dots and spaces, truncate to 255 UTF-8 bytes. -/
def sanitizeFilenameL (l : List Char) : List Char :=
  let s2 := pngFilteredChars l
  let s3 := if isAllDots s2 then [] else s2
  let s4 := if isWindowsReservedName s3 then [] else s3
  let s5 := dropTrailingJunk s4
  truncBytes s5 255

def sanitizeFilename (s : String) : String := ⟨sanitizeFilenameL s.data⟩

/-- The character class preserved by `getPngName`'s final replacement:
ASCII letters, ASCII digits, CJK ideographs U+4E00-U+9FFF. -/
def isKeptByPngName (c : Char) : Bool :=
  ('a' ≤ c && c ≤ 'z') || ('A' ≤ c && c ≤ 'Z') || ('0' ≤ c && c ≤ '9') ||
  (0x4e00 ≤ c.toNat && c.toNat ≤ 0x9fff)

def pngNameReplace (c : Char) : Char := if isKeptByPngName c then c else '_'

/-- Function `getPngName` from the router: `sanitize(name)` followed by the
underscore replacement of every non-preserved character. -/
def getPngName (s : String) : String :=
  ⟨(sanitizeFilenameL s.data).map pngNameReplace⟩

/-! ### Supporting lemmas for sanitization stability -/

theorem charUtf8Len_pos (c : Char) : 1 ≤ charUtf8Len c := by
  unfold charUtf8Len
  split
  · omega
  · split
    · omega
    · split <;> omega

theorem utf8Len_truncBytes_le (l : List Char) (b : Nat) :
    utf8Len (truncBytes l b) ≤ b := by
  induction l generalizing b with
  | nil => simp [truncBytes, utf8Len]
  | cons c rest ih =>
    unfold truncBytes
    split
    · rename_i hc
      have := ih (b - charUtf8Len c)
      simp only [utf8Len, List.map_cons, List.sum_cons] at *
      omega
    · simp [utf8Len]

theorem truncBytes_eq_self (l : List Char) (b : Nat) (h : utf8Len l ≤ b) :
    truncBytes l b = l := by
  induction l generalizing b with
  | nil => rfl
  | cons c rest ih =>
    simp only [utf8Len, List.map_cons, List.sum_cons] at h
    have hc : charUtf8Len c ≤ b := by omega
    unfold truncBytes
    rw [if_pos hc, ih (b - charUtf8Len c) (by simp only [utf8Len]; omega)]

theorem utf8Len_map_pngNameReplace_le (l : List Char) :
    utf8Len (l.map pngNameReplace) ≤ utf8Len l := by
  induction l with
  | nil => simp [utf8Len]
  | cons c rest ih =>
    simp only [List.map_cons, utf8Len, List.sum_cons] at *
    have hrep : charUtf8Len (pngNameReplace c) ≤ charUtf8Len c := by
      unfold pngNameReplace
      split
      · exact le_refl _
      · exact le_trans (by decide) (charUtf8Len_pos c)
    omega

theorem mem_map_pngNameReplace (l : List Char) (c : Char)
    (hc : c ∈ l.map pngNameReplace) : isKeptByPngName c = true ∨ c = '_' := by
  rcases List.mem_map.mp hc with ⟨a, _, rfl⟩
  unfold pngNameReplace
  split
  · left; assumption
  · right; rfl

theorem pngNameReplace_id (c : Char) (h : isKeptByPngName c = true ∨ c = '_') :
    pngNameReplace c = c := by
  unfold pngNameReplace
  split
  · rfl
  · rcases h with h | h
    · simp [*] at *
    · rw [h]

theorem kept_char_props (c : Char) (h : isKeptByPngName c = true ∨ c = '_') :
    isIllegalFileChar c = false ∧ isFileControlChar c = false ∧
      isDotOrSpace c = false := by
  have hn : (97 ≤ c.toNat ∧ c.toNat ≤ 122) ∨ (65 ≤ c.toNat ∧ c.toNat ≤ 90) ∨
      (48 ≤ c.toNat ∧ c.toNat ≤ 57) ∨
      (0x4e00 ≤ c.toNat ∧ c.toNat ≤ 0x9fff) ∨ c = '_' := by
    rcases h with h | h
    · simp only [isKeptByPngName, Bool.or_eq_true, Bool.and_eq_true,
        decide_eq_true_eq] at h
      tauto
    · tauto
  refine ⟨?_, ?_, ?_⟩
  · by_cases hI : isIllegalFileChar c = true
    · exfalso
      simp only [isIllegalFileChar, Bool.or_eq_true, decide_eq_true_eq,
        or_assoc] at hI
      rcases hI with h|h|h|h|h|h|h|h|h <;> subst h <;> revert hn <;> decide
    · simpa using hI
  · by_cases hC : isFileControlChar c = true
    · exfalso
      simp only [isFileControlChar, Bool.or_eq_true, Bool.and_eq_true,
        decide_eq_true_eq] at hC
      rcases hn with h|h|h|h|h
      · omega
      · omega
      · omega
      · omega
      · subst h; revert hC; decide
    · simpa using hC
  · by_cases hD : isDotOrSpace c = true
    · exfalso
      simp only [isDotOrSpace, Bool.or_eq_true, decide_eq_true_eq] at hD
      rcases hD with h|h <;> subst h <;> revert hn <;> decide
    · simpa using hD

theorem dropWhileChar_eq_self_of_all (p : Char → Bool) (l : List Char)
    (h : ∀ c ∈ l, p c = false) : l.dropWhile p = l := by
  cases l with
  | nil => rfl
  | cons c t =>
    rw [List.dropWhile_cons]
    simp [h c (by simp)]

theorem dropTrailingJunk_eq_self (l : List Char)
    (h : ∀ c ∈ l, isDotOrSpace c = false) : dropTrailingJunk l = l := by
  unfold dropTrailingJunk
  rw [dropWhileChar_eq_self_of_all _ _ (fun c hc => h c (List.mem_reverse.mp hc)),
    List.reverse_reverse]

theorem dropTrailingJunk_eq_self_of_getLast (l : List Char)
    (h : ∀ c, l.getLast? = some c → isDotOrSpace c = false) :
    dropTrailingJunk l = l := by
  unfold dropTrailingJunk
  cases hrev : l.reverse with
  | nil =>
    have : l = [] := by simpa using congrArg List.reverse hrev
    simp [this]
  | cons c t =>
    have hc : l.getLast? = some c := by
      rw [← List.head?_reverse, hrev]; rfl
    rw [List.dropWhile_cons]
    simp only [h c hc, Bool.false_eq_true, if_false]
    rw [← hrev, List.reverse_reverse]

theorem isAllDots_eq_false_of_clean (l : List Char)
    (h : ∀ c ∈ l, isKeptByPngName c = true ∨ c = '_') :
    isAllDots l = false := by
  cases l with
  | nil => rfl
  | cons c t =>
    have hd := (kept_char_props c (h c (by simp))).2.2
    simp only [isDotOrSpace] at hd
    obtain ⟨hd1, _⟩ := Bool.or_eq_false_iff.mp hd
    simp [isAllDots, List.all_cons, hd1]

theorem sanitizeFilenameL_eq_self_of_clean (l : List Char)
    (hmem : ∀ c ∈ l, isKeptByPngName c = true ∨ c = '_')
    (hres : isWindowsReservedName l = false)
    (hlen : utf8Len l ≤ 255) :
    sanitizeFilenameL l = l := by
  have h1 : l.filter (fun c => !isIllegalFileChar c) = l :=
    List.filter_eq_self.mpr (fun c hc => by
      simp [(kept_char_props c (hmem c hc)).1])
  have h2 : l.filter (fun c => !isFileControlChar c) = l :=
    List.filter_eq_self.mpr (fun c hc => by
      simp [(kept_char_props c (hmem c hc)).2.1])
  have hfilt : pngFilteredChars l = l := by
    unfold pngFilteredChars
    rw [h1, h2]
  simp only [sanitizeFilenameL, hfilt, isAllDots_eq_false_of_clean l hmem, hres,
    Bool.false_eq_true, if_false]
  rw [dropTrailingJunk_eq_self l (fun c hc => (kept_char_props c (hmem c hc)).2.2),
    truncBytes_eq_self l 255 hlen]

theorem utf8Len_getPngName_le (x : String) :
    utf8Len (getPngName x).data ≤ 255 := by
  have h1 : utf8Len (sanitizeFilenameL x.data) ≤ 255 := by
    unfold sanitizeFilenameL
    exact utf8Len_truncBytes_le _ _
  exact le_trans (utf8Len_map_pngNameReplace_le _) h1

/-- Whether the last character is a trailing dot or space (the only way
the trailing-strip pass of `sanitize-filename` can act). -/
def lastIsJunk (l : List Char) : Bool :=
  match l.getLast? with
  | none => false
  | some c => isDotOrSpace c

theorem dropTrailingJunk_eq_self_of_lastOk (l : List Char)
    (h : lastIsJunk l = false) : dropTrailingJunk l = l :=
  dropTrailingJunk_eq_self_of_getLast l (fun c hc => by
    unfold lastIsJunk at h
    rw [hc] at h
    exact h)

/-- Claim C6, counterexample: `getPngName` is not idempotent.  The name
`"con "` sanitizes to `"con"` (the trailing space is stripped after the
reserved-name test), but sanitizing `"con"` again hits the Windows
reserved-device-name rule and yields the empty string. -/
theorem spec_C6_counterexample :
    getPngName (getPngName "con ") ≠ getPngName "con " := by decide

/-- Claim C6 (amended): sanitized names contain no path separators and no
control characters, for every input; and `getPngName` is idempotent on
every input whose sanitized name is not a Windows reserved device name
(the only failure mode, per the counterexample). -/
theorem spec_C6_sanitizeStability (x : String) :
    (∀ c ∈ (getPngName x).data,
      c ≠ '/' ∧ c ≠ '\\' ∧ isFileControlChar c = false) ∧
    (isWindowsReservedName (getPngName x).data = false →
      getPngName (getPngName x) = getPngName x) := by
  have hmem : ∀ c ∈ (getPngName x).data, isKeptByPngName c = true ∨ c = '_' :=
    fun c hc => mem_map_pngNameReplace _ c hc
  constructor
  · intro c hc
    have hp := kept_char_props c (hmem c hc)
    refine ⟨?_, ?_, hp.2.1⟩
    · intro heq
      subst heq
      exact absurd hp.1 (by decide)
    · intro heq
      subst heq
      exact absurd hp.1 (by decide)
  · intro h
    show (⟨(sanitizeFilenameL (getPngName x).data).map pngNameReplace⟩ : String)
        = ⟨(getPngName x).data⟩
    rw [sanitizeFilenameL_eq_self_of_clean _ hmem h (utf8Len_getPngName_le x)]
    congr 1
    calc (getPngName x).data.map pngNameReplace
        = (getPngName x).data.map id :=
          List.map_congr_left (fun c hc => pngNameReplace_id c (hmem c hc))
      _ = (getPngName x).data := List.map_id _

/-- Claim C6 witness: the character property on the reserved-name input
of the counterexample (where it holds unconditionally), and idempotence
on a concrete non-reserved name, both through the theorem. -/
theorem spec_C6_sanitizeStability_witness :
    ('c' ∈ (getPngName "con ").data →
      'c' ≠ '/' ∧ 'c' ≠ '\\' ∧ isFileControlChar 'c' = false) ∧
    (isWindowsReservedName (getPngName "Mary Sue!").data = false ∧
      getPngName (getPngName "Mary Sue!") = getPngName "Mary Sue!") :=
  ⟨(spec_C6_sanitizeStability "con ").1 'c',
    ⟨by decide, (spec_C6_sanitizeStability "Mary Sue!").2 (by decide)⟩⟩

/-- Modelled from the spec: the claim's class of Unicode letters and
digits, restricted to the ranges this development exercises (ASCII
alphanumerics, Latin-1 letters, Greek, Cyrillic, CJK ideographs). -/
def isUnicodeLetterOrDigit (c : Char) : Bool :=
  (97 ≤ c.toNat && c.toNat ≤ 122) || (65 ≤ c.toNat && c.toNat ≤ 90) ||
  (48 ≤ c.toNat && c.toNat ≤ 57) ||
  (0xC0 ≤ c.toNat && c.toNat ≤ 0xFF && c.toNat ≠ 0xD7 && c.toNat ≠ 0xF7) ||
  (0x391 ≤ c.toNat && c.toNat ≤ 0x3C9 && c.toNat ≠ 0x3A2) ||
  (0x400 ≤ c.toNat && c.toNat ≤ 0x481) ||
  (0x4E00 ≤ c.toNat && c.toNat ≤ 0x9FFF)

/-- The sanitization behaviour claim C7 describes: every Unicode letter
or digit survives unchanged, every other character becomes one filler
character in place. -/
def specC7Replacement (s : String) : String :=
  ⟨s.data.map (fun c => if isUnicodeLetterOrDigit c then c else '_')⟩

/-- Claim C7, counterexample: `getPngName` is not the per-character map
the claim describes.  A slash (not a letter or digit) is deleted by
`sanitize-filename` rather than replaced with a filler, and the Unicode
letter U+00E9 is replaced by the filler rather than preserved. -/
theorem spec_C7_counterexample :
    getPngName "/" ≠ specC7Replacement "/" ∧
    getPngName "é" ≠ specC7Replacement "é" := by decide

/-- Claim C7 (amended): on inputs not touched by the whole-string rules
(dot-only, reserved device name, trailing dots or spaces, 255-byte
truncation), `getPngName` first deletes the `sanitize-filename`
path-hostile and control characters and then maps every remaining
character that is not an ASCII letter, ASCII digit, or CJK ideograph
U+4E00-U+9FFF to a single underscore, preserving exactly those. -/
theorem spec_C7_charPreservation (x : String)
    (h1 : isAllDots (pngFilteredChars x.data) = false)
    (h2 : isWindowsReservedName (pngFilteredChars x.data) = false)
    (h3 : lastIsJunk (pngFilteredChars x.data) = false)
    (h4 : utf8Len (pngFilteredChars x.data) ≤ 255) :
    getPngName x = ⟨(pngFilteredChars x.data).map pngNameReplace⟩ := by
  have hs : sanitizeFilenameL x.data = pngFilteredChars x.data := by
    simp only [sanitizeFilenameL, h1, h2, Bool.false_eq_true, if_false]
    rw [dropTrailingJunk_eq_self_of_lastOk _ h3, truncBytes_eq_self _ _ h4]
  show (⟨(sanitizeFilenameL x.data).map pngNameReplace⟩ : String) = _
  rw [hs]

/-- Claim C7 witness: the characterization evaluated on a concrete name
with a space, a Latin-1 letter and punctuation. -/
theorem spec_C7_charPreservation_witness :
    getPngName "Aria é3!" = ⟨(pngFilteredChars "Aria é3!".data).map pngNameReplace⟩ :=
  spec_C7_charPreservation "Aria é3!" (by decide) (by decide) (by decide) (by decide)

/-! ### Container codec (spec-modelled)

`parse`, `read` and `write` come from `character-card-parser.js`, which is
repository code not included under the provided sources; the codec is
modelled from the design document (section 4.1): a PNG is a signature flag
plus a chunk stream, text segments carry a keyword and a base64 payload. -/

/-- Base64 encoding of a byte list into a list of six-bit groups. -/
def b64encode : List Nat → List Nat
  | [] => []
  | [a] => [a / 4, a % 4 * 16]
  | [a, b] => [a / 4, a % 4 * 16 + b / 16, b % 16 * 4]
  | a :: b :: c :: rest =>
    a / 4 :: (a % 4 * 16 + b / 16) :: (b % 16 * 4 + c / 64) :: c % 64 :: b64encode rest

/-- Base64 decoding of a list of six-bit groups back into bytes. -/
def b64decode : List Nat → List Nat
  | s0 :: s1 :: s2 :: s3 :: rest =>
    (s0 * 4 + s1 / 16) :: (s1 % 16 * 16 + s2 / 4) :: (s2 % 4 * 64 + s3) :: b64decode rest
  | [s0, s1] => [s0 * 4 + s1 / 16]
  | [s0, s1, s2] => [s0 * 4 + s1 / 16, s1 % 16 * 16 + s2 / 4]
  | _ => []

theorem b64decode_b64encode (bs : List Nat) (h : ∀ b ∈ bs, b < 256) :
    b64decode (b64encode bs) = bs := by
  induction bs using b64encode.induct with
  | case1 => rfl
  | case2 a =>
    have ha : a < 256 := h a (by simp)
    simp only [b64encode, b64decode, List.cons.injEq, and_true]
    omega
  | case3 a b =>
    have ha : a < 256 := h a (by simp)
    have hb : b < 256 := h b (by simp)
    simp only [b64encode, b64decode, List.cons.injEq, and_true]
    refine ⟨?_, ?_⟩ <;> omega
  | case4 a b c rest ih =>
    have ha : a < 256 := h a (by simp)
    have hb : b < 256 := h b (by simp)
    have hc : c < 256 := h c (by simp)
    have ih' := ih (fun x hx => h x (by simp [hx]))
    simp only [b64encode, b64decode, List.cons.injEq, ih', and_true]
    refine ⟨?_, ?_, ?_⟩ <;> omega

/-- A chunk of the PNG container: either a text segment (keyword plus the
base64 groups of its value) or any other segment. -/
inductive Chunk where
  | text (keyword : String) (data : List Nat)
  | other (name : String) (data : List Nat)

def chunkData : Chunk → List Nat
  | .text _ d => d
  | .other _ d => d

def asciiLowerStr (s : String) : String := ⟨s.data.map lowerAscii⟩

/-- Whether a chunk is a text segment whose keyword, lowercased, is
`chara` or `ccv3`. -/
def chunkMatches : Chunk → Bool
  | .text k _ => asciiLowerStr k = "chara" || asciiLowerStr k = "ccv3"
  | .other _ _ => false

/-- A PNG byte stream: whether it begins with the 8-byte signature, and
its chunk stream. -/
structure Png where
  hasSignature : Bool
  chunks : List Chunk

inductive CodecError where
  | malformedContainer
  | notACharacterCard

/-- First matching text segment in chunk order. -/
def scanChara : List Chunk → Option (List Nat)
  | [] => none
  | c :: rest => if chunkMatches c then some (chunkData c) else scanChara rest

/-- Modelled from the spec: Container Codec `decode` (the `read` of
`character-card-parser.js`): fails with `MalformedContainer` when the byte
stream lacks the signature, otherwise returns the base64-decoded value of
the first text segment whose keyword is `chara` or `ccv3`
case-insensitively, failing with `NotACharacterCard` when no such segment
exists. -/
def pngRead (p : Png) : Except CodecError (List Nat) :=
  if !p.hasSignature then .error .malformedContainer
  else
    match scanChara p.chunks with
    | some d => .ok (b64decode d)
    | none => .error .notACharacterCard

def isIend : Chunk → Bool
  | .other n _ => n = "IEND"
  | .text _ _ => false

def insertBeforeIend (c : Chunk) : List Chunk → List Chunk
  | [] => [c]
  | x :: rest => if isIend x then c :: x :: rest else x :: insertBeforeIend c rest

/-- Modelled from the spec: Container Codec `encode` (the `write` of
`character-card-parser.js`): strips any pre-existing `chara`/`ccv3` text
segments and inserts a fresh `chara` segment holding the base64 payload
immediately before the terminal `IEND` segment, leaving every other
segment untouched. -/
def pngWrite (p : Png) (payload : List Nat) : Png :=
  { hasSignature := p.hasSignature,
    chunks :=
      insertBeforeIend (.text "chara" (b64encode payload))
        (p.chunks.filter (fun c => !chunkMatches c)) }

theorem scanChara_insertBeforeIend (l : List Chunk) (c : Chunk)
    (hl : ∀ x ∈ l, chunkMatches x = false) (hc : chunkMatches c = true) :
    scanChara (insertBeforeIend c l) = some (chunkData c) := by
  induction l with
  | nil => simp [insertBeforeIend, scanChara, hc]
  | cons x rest ih =>
    unfold insertBeforeIend
    split
    · simp [scanChara, hc]
    · simp only [scanChara, hl x (by simp), Bool.false_eq_true, if_false]
      exact ih (fun y hy => hl y (by simp [hy]))

/-- The codec round-trip at the chunk level: decoding an encoded container
returns the payload byte-exactly, for any signed base image. -/
theorem pngRead_pngWrite (p : Png) (payload : List Nat)
    (hsig : p.hasSignature = true) (hb : ∀ b ∈ payload, b < 256) :
    pngRead (pngWrite p payload) = .ok payload := by
  have hmem : ∀ x ∈ p.chunks.filter (fun c => !chunkMatches c),
      chunkMatches x = false := by
    intro x hx
    simpa using (List.mem_filter.mp hx).2
  unfold pngRead pngWrite
  simp only [hsig, Bool.not_true, Bool.false_eq_true, if_false]
  rw [scanChara_insertBeforeIend _ (.text "chara" (b64encode payload)) hmem rfl]
  simp [chunkData, b64decode_b64encode payload hb]

/-! ### Canonical record serialization

The import drivers persist `JSON.stringify(char)` embedded in the
container.  Numeric formatting is abstracted by printing the rational
value; the round-trip claim treats the serialized text opaquely as
bytes. -/

def hexDigitChar (n : Nat) : Char :=
  if n < 10 then Char.ofNat (48 + n) else Char.ofNat (87 + n)

/-- JSON string escaping as `JSON.stringify` performs it. -/
def jsonEscapeChar (c : Char) : List Char :=
  if c = '\"' then ['\\', '\"']
  else if c = '\\' then ['\\', '\\']
  else if c.toNat = 8 then ['\\', 'b']
  else if c.toNat = 9 then ['\\', 't']
  else if c.toNat = 10 then ['\\', 'n']
  else if c.toNat = 12 then ['\\', 'f']
  else if c.toNat = 13 then ['\\', 'r']
  else if c.toNat < 32 then
    ['\\', 'u', '0', '0', hexDigitChar (c.toNat / 16), hexDigitChar (c.toNat % 16)]
  else [c]

def quoteJson (s : String) : String :=
  ⟨'\"' :: ((s.data.map jsonEscapeChar).flatten ++ ['\"'])⟩

mutual

def stringifyJson : Json → String
  | .null => "null"
  | .bool true => "true"
  | .bool false => "false"
  | .num q => toString q
  | .str s => quoteJson s
  | .arr es => "[" ++ stringifyList es ++ "]"
  | .obj fs => "\x7b" ++ stringifyFields fs ++ "\x7d"

def stringifyList : List Json → String
  | [] => ""
  | [v] => stringifyJson v
  | v :: rest => stringifyJson v ++ "," ++ stringifyList rest

def stringifyFields : List (String × Json) → String
  | [] => ""
  | [(k, v)] => quoteJson k ++ ":" ++ stringifyJson v
  | (k, v) :: rest => quoteJson k ++ ":" ++ stringifyJson v ++ "," ++ stringifyFields rest

end

/-- UTF-8 bytes of one character. -/
def charUtf8 (c : Char) : List Nat :=
  if c.toNat < 0x80 then [c.toNat]
  else if c.toNat < 0x800 then [0xC0 + c.toNat / 64, 0x80 + c.toNat % 64]
  else if c.toNat < 0x10000 then
    [0xE0 + c.toNat / 4096, 0x80 + c.toNat / 64 % 64, 0x80 + c.toNat % 64]
  else
    [0xF0 + c.toNat / 262144, 0x80 + c.toNat / 4096 % 64,
     0x80 + c.toNat / 64 % 64, 0x80 + c.toNat % 64]

def utf8Bytes (s : String) : List Nat := (s.data.map charUtf8).flatten

theorem charUtf8_lt_256 (c : Char) : ∀ b ∈ charUtf8 c, b < 256 := by
  have hv : c.toNat < 0x110000 := by
    rcases c.valid with h | ⟨_, h⟩
    · exact lt_trans h (by norm_num)
    · exact h
  intro b hb
  unfold charUtf8 at hb
  split at hb
  · simp at hb; omega
  · split at hb
    · simp at hb; rcases hb with h | h <;> omega
    · split at hb
      · simp at hb; rcases hb with h | h | h <;> omega
      · simp at hb; rcases hb with h | h | h | h <;> omega

theorem utf8Bytes_lt_256 (s : String) : ∀ b ∈ utf8Bytes s, b < 256 := by
  intro b hb
  unfold utf8Bytes at hb
  rcases List.mem_flatten.mp hb with ⟨l, hl, hbl⟩
  rcases List.mem_map.mp hl with ⟨c, _, rfl⟩
  exact charUtf8_lt_256 c b hbl

/-- The canonical record of the data model (design document section 3),
with the field names the import drivers actually persist. -/
structure CharacterRecord where
  name : String
  description : String
  personality : String
  scenario : String
  firstMessage : String
  exampleDialogue : String
  creatorNotes : String
  tags : List String
  createdAt : String
  uploaderHandle : String
  uploaderName : String

/-- The persisted JSON object of a canonical record, shaped as the yaml
driver builds it (router lines 443-459). -/
def CharacterRecord.toJson (r : CharacterRecord) : Json :=
  .obj [("name", .str r.name), ("description", .str r.description),
        ("personality", .str r.personality), ("scenario", .str r.scenario),
        ("first_mes", .str r.firstMessage),
        ("mes_example", .str r.exampleDialogue),
        ("creatorcomment", .str r.creatorNotes),
        ("tags", .arr (r.tags.map .str)),
        ("create_date", .str r.createdAt),
        ("uploader", .str r.uploaderName),
        ("uploader_handle", .str r.uploaderHandle)]

/-- Serialization `serialize(R)`: the UTF-8 bytes of `JSON.stringify` of the canonical
object. -/
def serializeRecord (r : CharacterRecord) : List Nat :=
  utf8Bytes (stringifyJson r.toJson)

/-- Modelled from the spec: the static default avatar, a well-formed PNG
with the required signature and no character-card text segments. -/
def defaultAvatarPng : Png :=
  { hasSignature := true,
    chunks := [.other "IHDR" [13], .other "IDAT" [1, 2, 3], .other "IEND" []] }

/-- Claim C2: round-trip law — decoding the container produced by encoding
`serialize(R)` into the default image yields `serialize(R)` byte-exactly,
for every canonical record `R`. -/
theorem spec_C2_roundTrip (r : CharacterRecord) :
    pngRead (pngWrite defaultAvatarPng (serializeRecord r)) =
      .ok (serializeRecord r) :=
  pngRead_pngWrite defaultAvatarPng (serializeRecord r) rfl
    (utf8Bytes_lt_256 (stringifyJson r.toJson))

/-- Claim C2 witness: the round trip evaluated on a concrete record. -/
theorem spec_C2_roundTrip_witness :
    pngRead (pngWrite defaultAvatarPng
        (serializeRecord ⟨"Aria", "", "", "", "", "", "", [], "2024-1-1", "alice", "Alice"⟩)) =
      .ok (serializeRecord ⟨"Aria", "", "", "", "", "", "", [], "2024-1-1", "alice", "Alice"⟩) :=
  spec_C2_roundTrip ⟨"Aria", "", "", "", "", "", "", [], "2024-1-1", "alice", "Alice"⟩

/-! ### Import drivers (router lines 435-638) and the upload route

The temp-file lifecycle is threaded as explicit state; image decoding,
`JSON.parse` and `yaml.parse` results are oracle parameters; the success
of `writeCharacterData` is an oracle flag.  `written` observes the record
object whose `JSON.stringify` is handed to `writeCharacterData`. -/

inductive ImpError where
  | tempMissing
  | invalidPngHeader
  | pngReadFailed
  | invalidJsonInPng
  | missingName
  | unsupportedCard
  | jsonParseThrew
  | yamlParseThrew
  | typeErrorThrew
deriving DecidableEq

/-- Temp-file state of one upload job. -/
structure FsState where
  tempExists : Bool
  unlinkCount : Nat
  badUnlink : Bool
deriving DecidableEq

/-- Call `fs.unlinkSync(uploadPath)`: deleting a missing file is recorded as a
bad unlink (it would throw `ENOENT`; the sources only ever reach it with
the file present, which the theorems confirm). -/
def unlinkTemp (fs : FsState) : FsState :=
  if fs.tempExists then ⟨false, fs.unlinkCount + 1, fs.badUnlink⟩
  else ⟨fs.tempExists, fs.unlinkCount, true⟩

/-- Guarded cleanup `if (fs.existsSync(uploadPath)) fs.unlinkSync(uploadPath)`. -/
def guardedUnlink (fs : FsState) : FsState :=
  if fs.tempExists then unlinkTemp fs else fs

/-- Outcome of one import driver call: the returned file name or thrown
error, the final temp-file state, and the record object passed to
`writeCharacterData` when one was. -/
structure DriverOut where
  result : Except ImpError String
  fs : FsState
  written : Option JObj

/-- Choice `preservedFileName || computed` when the fallback is already a
string (the png and yaml drivers compute `getPngName` of a known
string). -/
def pickName (preserved : Option String) (computed : String) : String :=
  match preserved with
  | some p => if p = "" then computed else p
  | none => computed

/-- Call `getPngName(v)` for a JS value: `sanitize` throws unless the argument
is a string. -/
def getPngNameOfJson (v : Option Json) : Except ImpError String :=
  match v with
  | some (.str s) => .ok (getPngName s)
  | _ => .error .typeErrorThrew

/-- Choice `preservedFileName || getPngName(v)` with the JS short-circuit: the
fallback (and its possible throw) is only evaluated when the preserved
name is falsy. -/
def pickNameJ (preserved : Option String) (arg : Option Json) : Except ImpError String :=
  match preserved with
  | some p => if p = "" then getPngNameOfJson arg else .ok p
  | none => getPngNameOfJson arg

/-- JS `a || b` over possibly-undefined values. -/
def jsOrOpt (a b : Option Json) : Option Json := if jsTruthyOpt a then a else b

/-- Function `unsetPrivateFields` (router lines 644-651): deletes the five
enumerated private-note fields, in source order. -/
def unsetPrivateFields (l : JObj) : JObj :=
  delK (delK (delK (delK (delK l "user_notes") "user_notes_private")
    "user_notes_public") "user_notes_private_visible") "user_notes_public_visible"

/-- Function `readFromV2` (router lines 657-660): the identity in this source. -/
def readFromV2 (card : JObj) : JObj := card

/-- The three server stamps applied in source order: `create_date`,
`uploader`, `uploader_handle`. -/
def stampUpload (l : JObj) (uploaderHandle uploaderName now : String) : JObj :=
  setK (setK (setK l "create_date" (.str now)) "uploader" (.str uploaderName))
    "uploader_handle" (.str uploaderHandle)

/-- Function `readCharacterData` (router lines 236-250) for the png format: the
codec read with every error swallowed into `undefined`. -/
def readCharacterData (p : Png) : Option (List Nat) := (pngRead p).toOption

/-- Driver `importFromYaml` (router lines 435-463).  The temp file is read and
unlinked first; `yaml.parse`, the `name` access and `sanitize` can then
throw; otherwise the fresh record is built and written. -/
def importFromYaml (parseYaml : Option Json) (writeOk : Bool)
    (uploaderHandle uploaderName now : String) (preserved : Option String)
    (fs0 : FsState) : DriverOut :=
  if !fs0.tempExists then ⟨.error .tempMissing, fs0, none⟩
  else
    let fs1 := unlinkTemp fs0
    match parseYaml with
    | none => ⟨.error .yamlParseThrew, fs1, none⟩
    | some (.obj l) =>
      match getK l "name" with
      | some (.str s) =>
        let s' := sanitizeFilename s
        let l1 := setK l "name" (.str s')
        let fileName := pickName preserved (getPngName s')
        let char : JObj :=
          [("name", .str s'),
           ("description", jsNullish (getK l1 "context") (.str "")),
           ("first_mes", jsNullish (getK l1 "greeting") (.str "")),
           ("create_date", .str now),
           ("chat", .str (s' ++ " - " ++ now)),
           ("personality", .str ""),
           ("creatorcomment", .str ""),
           ("avatar", .str "none"),
           ("mes_example", .str ""),
           ("scenario", .str ""),
           ("talkativeness", .num (1 / 2)),
           ("creator", .str ""),
           ("tags", jsOrJ (getK l1 "tags") (.arr [])),
           ("uploader", .str uploaderName),
           ("uploader_handle", .str uploaderHandle)]
        ⟨.ok (if writeOk then fileName else ""), fs1, some char⟩
      | _ => ⟨.error .typeErrorThrew, fs1, none⟩
    | some _ => ⟨.error .typeErrorThrew, fs1, none⟩

/-- The body of `importFromJson` (router lines 473-502) after
`JSON.parse` succeeded. -/
def jsonAfterParse (j : Json) (writeOk : Bool)
    (uploaderHandle uploaderName now : String) (preserved : Option String)
    (fs1 : FsState) : DriverOut :=
  match j with
  | .null => ⟨.error .typeErrorThrew, fs1, none⟩
  | .obj l =>
    if hasK l "spec" then
      let l2 := stampUpload (readFromV2 (unsetPrivateFields l))
        uploaderHandle uploaderName now
      match pickNameJ preserved
          (jsOrOpt ((getK l2 "data").bind (fun d => jAccess d "name"))
            (getK l2 "name")) with
      | .error e => ⟨.error e, fs1, none⟩
      | .ok pngName => ⟨.ok (if writeOk then pngName else ""), fs1, some l2⟩
    else if hasK l "name" then
      let l2 := stampUpload l uploaderHandle uploaderName now
      match pickNameJ preserved (getK l2 "name") with
      | .error e => ⟨.error e, fs1, none⟩
      | .ok pngName => ⟨.ok (if writeOk then pngName else ""), fs1, some l2⟩
    else ⟨.ok "", fs1, none⟩
  | _ => ⟨.ok "", fs1, none⟩

/-- Driver `importFromJson` (router lines 473-502): read, unlink, parse (a parse
failure throws after the unlink), then the generation branches. -/
def importFromJson (parseJson : Option Json) (writeOk : Bool)
    (uploaderHandle uploaderName now : String) (preserved : Option String)
    (fs0 : FsState) : DriverOut :=
  if !fs0.tempExists then ⟨.error .tempMissing, fs0, none⟩
  else
    let fs1 := unlinkTemp fs0
    match parseJson with
    | none => ⟨.error .jsonParseThrew, fs1, none⟩
    | some j => jsonAfterParse j writeOk uploaderHandle uploaderName now preserved fs1

/-- The body of `importFromPng` (router lines 582-629) after the payload
JSON-parsed: name checks, in-place sanitization, generation branches;
the temp file is unlinked after `writeCharacterData` on both success
branches. -/
def pngAfterParse (j : Json) (writeOk : Bool)
    (uploaderHandle uploaderName now : String) (preserved : Option String)
    (fs0 : FsState) : DriverOut :=
  match j with
  | .null => ⟨.error .typeErrorThrew, fs0, none⟩
  | _ =>
    let nameV := jAccess j "name"
    let dataNameV := (jAccess j "data").bind (fun d => jAccess d "name")
    if !jsTruthyOpt nameV && !jsTruthyOpt dataNameV then
      ⟨.error .missingName, fs0, none⟩
    else
      match jsOrOpt dataNameV nameV with
      | some (.str orig) =>
        match j with
        | .obj l =>
          let l1 := setK l "name" (.str (sanitizeFilename orig))
          let pngName := pickName preserved (getPngName (sanitizeFilename orig))
          if hasK l1 "spec" then
            let l2 := stampUpload (readFromV2 (unsetPrivateFields l1))
              uploaderHandle uploaderName now
            ⟨.ok (if writeOk then pngName else ""), unlinkTemp fs0, some l2⟩
          else if hasK l1 "name" then
            let l2 := stampUpload l1 uploaderHandle uploaderName now
            ⟨.ok (if writeOk then pngName else ""), unlinkTemp fs0, some l2⟩
          else ⟨.error .unsupportedCard, fs0, none⟩
        | _ => ⟨.error .typeErrorThrew, fs0, none⟩
      | _ => ⟨.error .typeErrorThrew, fs0, none⟩

/-- Driver `importFromPng` (router lines 512-638).  The header is checked first;
then the codec read is attempted on the buffer and, failing that, via
`readCharacterData` — which swallows its own errors and returns
`undefined` instead of throwing, so the chunk-diagnostic block of the
source (lines 549-578) can never run and a decode failure always
surfaces as the generic read error.  The surrounding catch deletes the
temp file (guarded by an existence check) and rethrows. -/
def importFromPng (png : Png) (parsePngJson : List Nat → Option Json)
    (writeOk : Bool) (uploaderHandle uploaderName now : String)
    (preserved : Option String) (fs0 : FsState) : DriverOut :=
  let inner : DriverOut :=
    if !fs0.tempExists then ⟨.error .tempMissing, fs0, none⟩
    else if !png.hasSignature then ⟨.error .invalidPngHeader, fs0, none⟩
    else
      let imgData : Option (List Nat) :=
        match pngRead png with
        | .ok d => some d
        | .error _ => readCharacterData png
      match imgData with
      | none => ⟨.error .pngReadFailed, fs0, none⟩
      | some d =>
        match parsePngJson d with
        | none => ⟨.error .invalidJsonInPng, fs0, none⟩
        | some j =>
          pngAfterParse j writeOk uploaderHandle uploaderName now preserved fs0
  match inner with
  | ⟨.error e, fs, w⟩ => ⟨.error e, guardedUnlink fs, w⟩
  | out => out

/-- A signed PNG with no text segments at all. -/
def pngNoTextChunks : Png :=
  ⟨true, [.other "IHDR" [13], .other "IDAT" [1], .other "IEND" []]⟩

/-- A signed PNG whose only text segment has the keyword `other`
(neither `chara` nor `ccv3`). -/
def pngForeignTextChunk : Png :=
  ⟨true, [.other "IHDR" [13], .text "other" [1, 2], .other "IEND" []]⟩

/-- A byte stream lacking the 8-byte PNG signature. -/
def pngNoSignature : Png := ⟨false, []⟩

/-- Claim C1: the missing-signature case fails with its own header error,
but the no-text-segments case and the foreign-keyword case both surface
the same generic read error — `readCharacterData` swallows the codec
failure into `undefined` instead of rethrowing, so the diagnostic scan of
lines 549-578 is unreachable and the two decode-failure classes are
conflated. -/
theorem spec_C1_classificationConflated :
    (importFromPng pngNoTextChunks (fun _ => none) true "alice" "Alice"
        "2024" none ⟨true, 0, false⟩).result = .error .pngReadFailed ∧
    (importFromPng pngForeignTextChunk (fun _ => none) true "alice" "Alice"
        "2024" none ⟨true, 0, false⟩).result = .error .pngReadFailed ∧
    (importFromPng pngNoSignature (fun _ => none) true "alice" "Alice"
        "2024" none ⟨true, 0, false⟩).result = .error .invalidPngHeader :=
  ⟨rfl, rfl, rfl⟩

/-! ### Claim C8: temp-file lifecycle -/

theorem hasK_setK_of_ne (l : JObj) (k k' : String) (v : Json) (h : k' ≠ k) :
    hasK (setK l k v) k' = hasK l k' := by
  unfold hasK
  rw [getK_setK_of_ne _ _ _ _ h]

theorem stampUpload_fields (l : JObj) (h n t : String) :
    getK (stampUpload l h n t) "uploader" = some (.str n) ∧
    getK (stampUpload l h n t) "uploader_handle" = some (.str h) ∧
    getK (stampUpload l h n t) "create_date" = some (.str t) := by
  unfold stampUpload
  refine ⟨?_, ?_, ?_⟩
  · rw [getK_setK_of_ne _ _ _ _ (by decide), getK_setK_self]
  · rw [getK_setK_self]
  · rw [getK_setK_of_ne _ _ _ _ (by decide), getK_setK_of_ne _ _ _ _ (by decide),
      getK_setK_self]

theorem getK_stampUpload_of_ne (l : JObj) (h n t : String) (k : String)
    (h1 : k ≠ "create_date") (h2 : k ≠ "uploader") (h3 : k ≠ "uploader_handle") :
    getK (stampUpload l h n t) k = getK l k := by
  unfold stampUpload
  rw [getK_setK_of_ne _ _ _ _ h3, getK_setK_of_ne _ _ _ _ h2,
    getK_setK_of_ne _ _ _ _ h1]

theorem getK_unsetPrivateFields_of_private (l : JObj) (f : String)
    (hf : f = "user_notes" ∨ f = "user_notes_private" ∨ f = "user_notes_public" ∨
      f = "user_notes_private_visible" ∨ f = "user_notes_public_visible") :
    getK (unsetPrivateFields l) f = none := by
  unfold unsetPrivateFields
  rcases hf with rfl | rfl | rfl | rfl | rfl
  · rw [getK_delK_of_ne _ _ _ (by decide), getK_delK_of_ne _ _ _ (by decide),
      getK_delK_of_ne _ _ _ (by decide), getK_delK_of_ne _ _ _ (by decide),
      getK_delK_self]
  · rw [getK_delK_of_ne _ _ _ (by decide), getK_delK_of_ne _ _ _ (by decide),
      getK_delK_of_ne _ _ _ (by decide), getK_delK_self]
  · rw [getK_delK_of_ne _ _ _ (by decide), getK_delK_of_ne _ _ _ (by decide),
      getK_delK_self]
  · rw [getK_delK_of_ne _ _ _ (by decide), getK_delK_self]
  · rw [getK_delK_self]

theorem importFromYaml_written (py : Option Json) (wOk : Bool) (h n t : String)
    (pres : Option String) (fs0 : FsState) (r : JObj)
    (hw : (importFromYaml py wOk h n t pres fs0).written = some r) :
    getK r "uploader" = some (.str n) ∧
    getK r "uploader_handle" = some (.str h) ∧
    getK r "create_date" = some (.str t) := by
  unfold importFromYaml at hw
  split at hw
  · exact absurd hw (by simp)
  · rcases py with _ | j
    · exact absurd hw (by simp)
    · rcases j with _ | b | q | s | es | l
      all_goals try (exfalso; revert hw; simp; done)
      rcases hg : getK l "name" with _ | v
      · simp only [hg] at hw
        exact absurd hw (by simp)
      · rcases v with _ | b | q | s | es | l' <;> simp only [hg] at hw
        all_goals try (exfalso; revert hw; simp; done)
        simp only [Option.some.injEq] at hw
        subst hw
        refine ⟨?_, ?_, ?_⟩ <;> rfl

theorem jsonAfterParse_written_spec (l : JObj) (wOk : Bool) (h n t : String)
    (pres : Option String) (fs1 : FsState) (r : JObj)
    (hs : hasK l "spec" = true)
    (hw : (jsonAfterParse (.obj l) wOk h n t pres fs1).written = some r) :
    r = stampUpload (readFromV2 (unsetPrivateFields l)) h n t := by
  simp only [jsonAfterParse, hs, if_true] at hw
  rcases hp : pickNameJ pres
      (jsOrOpt ((getK (stampUpload (readFromV2 (unsetPrivateFields l)) h n t) "data").bind
        (fun d => jAccess d "name"))
        (getK (stampUpload (readFromV2 (unsetPrivateFields l)) h n t) "name")) with e | pn <;>
    simp only [hp] at hw
  · exact absurd hw (by simp)
  · simp only [Option.some.injEq] at hw
    exact hw.symm

theorem jsonAfterParse_written (j : Json) (wOk : Bool) (h n t : String)
    (pres : Option String) (fs1 : FsState) (r : JObj)
    (hw : (jsonAfterParse j wOk h n t pres fs1).written = some r) :
    ∃ X, r = stampUpload X h n t := by
  rcases j with _ | b | q | s | es | l
  all_goals try (exfalso; revert hw; simp [jsonAfterParse]; done)
  by_cases hs : hasK l "spec"
  · exact ⟨_, jsonAfterParse_written_spec l wOk h n t pres fs1 r hs hw⟩
  · simp only [jsonAfterParse, hs, Bool.false_eq_true, if_false] at hw
    by_cases hn2 : hasK l "name"
    · simp only [hn2, if_true] at hw
      rcases hp : pickNameJ pres (getK (stampUpload l h n t) "name") with e | pn <;>
        simp only [hp] at hw
      · exact absurd hw (by simp)
      · simp only [Option.some.injEq] at hw
        exact ⟨_, hw.symm⟩
    · simp only [hn2, Bool.false_eq_true, if_false] at hw
      exact absurd hw (by simp)

theorem importFromJson_written (pj : Option Json) (wOk : Bool) (h n t : String)
    (pres : Option String) (fs0 : FsState) (r : JObj)
    (hw : (importFromJson pj wOk h n t pres fs0).written = some r) :
    ∃ X, r = stampUpload X h n t := by
  unfold importFromJson at hw
  split at hw
  · exact absurd hw (by simp)
  · rcases pj with _ | j
    · exact absurd hw (by simp)
    · exact jsonAfterParse_written j wOk h n t pres _ r hw

theorem pngAfterParse_written (j : Json) (wOk : Bool) (h n t : String)
    (pres : Option String) (fs0 : FsState) (r : JObj)
    (hw : (pngAfterParse j wOk h n t pres fs0).written = some r) :
    ∃ X, r = stampUpload X h n t := by
  rcases j with _ | b | q | s | es | l
  all_goals try (exfalso; revert hw; simp [pngAfterParse, jAccess, jsTruthyOpt, jsOrOpt]; done)
  by_cases hmiss : (!jsTruthyOpt (jAccess (.obj l) "name") &&
      !jsTruthyOpt ((jAccess (.obj l) "data").bind (fun d => jAccess d "name"))) = true
  · exfalso
    revert hw
    simp [pngAfterParse, hmiss]
  · simp only [pngAfterParse] at hw
    simp only [Bool.not_eq_true] at hmiss
    simp only [hmiss, Bool.false_eq_true, if_false] at hw
    rcases ho : jsOrOpt ((jAccess (.obj l) "data").bind (fun d => jAccess d "name"))
        (jAccess (.obj l) "name") with _ | v <;> simp only [ho] at hw
    · exact absurd hw (by simp)
    · rcases v with _ | b | q | s | es | l'
      all_goals try (exfalso; revert hw; simp; done)
      by_cases hspec : hasK (setK l "name" (.str (sanitizeFilename s))) "spec"
      · simp only [hspec, if_true] at hw
        simp only [Option.some.injEq] at hw
        exact ⟨_, hw.symm⟩
      · simp only [hspec, Bool.false_eq_true, if_false] at hw
        by_cases hname : hasK (setK l "name" (.str (sanitizeFilename s))) "name"
        · simp only [hname, if_true] at hw
          simp only [Option.some.injEq] at hw
          exact ⟨_, hw.symm⟩
        · simp only [hname, Bool.false_eq_true, if_false] at hw
          exact absurd hw (by simp)

theorem pngAfterParse_written_spec (l : JObj) (wOk : Bool) (h n t : String)
    (pres : Option String) (fs0 : FsState) (r : JObj)
    (hs : hasK l "spec" = true)
    (hw : (pngAfterParse (.obj l) wOk h n t pres fs0).written = some r) :
    ∃ s, r = stampUpload (readFromV2 (unsetPrivateFields (setK l "name" (.str s)))) h n t := by
  by_cases hmiss : (!jsTruthyOpt (jAccess (.obj l) "name") &&
      !jsTruthyOpt ((jAccess (.obj l) "data").bind (fun d => jAccess d "name"))) = true
  · exfalso
    revert hw
    simp [pngAfterParse, hmiss]
  · simp only [pngAfterParse] at hw
    simp only [Bool.not_eq_true] at hmiss
    simp only [hmiss, Bool.false_eq_true, if_false] at hw
    rcases ho : jsOrOpt ((jAccess (.obj l) "data").bind (fun d => jAccess d "name"))
        (jAccess (.obj l) "name") with _ | v <;> simp only [ho] at hw
    · exact absurd hw (by simp)
    · rcases v with _ | b | q | s2 | es | l'
      all_goals try (exfalso; revert hw; simp; done)
      have hspec : hasK (setK l "name" (.str (sanitizeFilename s2))) "spec" = true := by
        rw [hasK_setK_of_ne l "name" "spec" _ (by decide)]
        exact hs
      simp only [hspec, if_true, Option.some.injEq] at hw
      exact ⟨sanitizeFilename s2, hw.symm⟩

theorem importFromPng_written (png : Png) (ppj : List Nat → Option Json)
    (wOk : Bool) (h n t : String) (pres : Option String) (fs0 : FsState) (r : JObj)
    (hw : (importFromPng png ppj wOk h n t pres fs0).written = some r) :
    ∃ X, r = stampUpload X h n t := by
  unfold importFromPng at hw
  by_cases htmp : (!fs0.tempExists) = true
  · exfalso
    revert hw
    simp [htmp]
  · simp only [Bool.not_eq_true] at htmp
    simp only [htmp, Bool.false_eq_true, if_false] at hw
    by_cases hsig : png.hasSignature
    · simp only [hsig, Bool.not_true, Bool.false_eq_true, if_false] at hw
      rcases hread : pngRead png with e | d
      · simp only [hread] at hw
        have hrc : readCharacterData png = none := by
          unfold readCharacterData
          rw [hread]
          rfl
        simp only [hrc] at hw
        exact absurd hw (by simp)
      · simp only [hread] at hw
        rcases hparse : ppj d with _ | j
        · simp only [hparse] at hw
          exact absurd hw (by simp)
        · simp only [hparse] at hw
          rcases hout : pngAfterParse j wOk h n t pres fs0 with ⟨re, fs, w⟩
          rw [hout] at hw
          rcases re with e | s <;> simp only [] at hw
          · exact pngAfterParse_written j wOk h n t pres fs0 r (by rw [hout]; exact hw)
          · exact pngAfterParse_written j wOk h n t pres fs0 r (by rw [hout]; exact hw)
    · simp only [Bool.not_eq_true] at hsig
      simp only [hsig] at hw
      exact absurd hw (by simp)

/-- Claim C3: for every accepted import on any driver, the record handed
to `writeCharacterData` carries the authenticated caller's display name
as `uploader`, the caller's handle as `uploader_handle`, and the
server-side timestamp as `create_date`, regardless of anything the
uploaded payload contained. -/
theorem spec_C3_uploaderIdentityStamped :
    (∀ (py : Option Json) (wOk : Bool) (h n t : String) (pres : Option String)
        (fs0 : FsState) (r : JObj),
        (importFromYaml py wOk h n t pres fs0).written = some r →
        getK r "uploader" = some (.str n) ∧
        getK r "uploader_handle" = some (.str h) ∧
        getK r "create_date" = some (.str t)) ∧
    (∀ (pj : Option Json) (wOk : Bool) (h n t : String) (pres : Option String)
        (fs0 : FsState) (r : JObj),
        (importFromJson pj wOk h n t pres fs0).written = some r →
        getK r "uploader" = some (.str n) ∧
        getK r "uploader_handle" = some (.str h) ∧
        getK r "create_date" = some (.str t)) ∧
    (∀ (png : Png) (ppj : List Nat → Option Json) (wOk : Bool) (h n t : String)
        (pres : Option String) (fs0 : FsState) (r : JObj),
        (importFromPng png ppj wOk h n t pres fs0).written = some r →
        getK r "uploader" = some (.str n) ∧
        getK r "uploader_handle" = some (.str h) ∧
        getK r "create_date" = some (.str t)) := by
  refine ⟨importFromYaml_written, ?_, ?_⟩
  · intro pj wOk h n t pres fs0 r hw
    obtain ⟨X, rfl⟩ := importFromJson_written pj wOk h n t pres fs0 r hw
    exact stampUpload_fields X h n t
  · intro png ppj wOk h n t pres fs0 r hw
    obtain ⟨X, rfl⟩ := importFromPng_written png ppj wOk h n t pres fs0 r hw
    exact stampUpload_fields X h n t

/-- Claim C3 witness: a concrete v1 json import; the caller identity
overrides nothing and is stamped onto the record. -/
theorem spec_C3_uploaderIdentityStamped_witness :
    getK [("name", Json.str "A"), ("create_date", Json.str "2024"),
        ("uploader", Json.str "Alice"), ("uploader_handle", Json.str "alice")]
      "uploader" = some (.str "Alice") ∧
    getK [("name", Json.str "A"), ("create_date", Json.str "2024"),
        ("uploader", Json.str "Alice"), ("uploader_handle", Json.str "alice")]
      "uploader_handle" = some (.str "alice") ∧
    getK [("name", Json.str "A"), ("create_date", Json.str "2024"),
        ("uploader", Json.str "Alice"), ("uploader_handle", Json.str "alice")]
      "create_date" = some (.str "2024") :=
  spec_C3_uploaderIdentityStamped.2.1 (some (.obj [("name", .str "A")])) true
    "alice" "Alice" "2024" none ⟨true, 0, false⟩ _ rfl

/-- Claim C4: on every V2/V3 path (payload carrying a `spec` field) of
the json and png drivers, the record handed to `writeCharacterData`
contains none of the five enumerated private-note fields. -/
theorem spec_C4_privacyScrubApplied :
    (∀ (l : JObj) (wOk : Bool) (h n t : String) (pres : Option String)
        (fs1 : FsState) (r : JObj),
        hasK l "spec" = true →
        (jsonAfterParse (.obj l) wOk h n t pres fs1).written = some r →
        getK r "user_notes" = none ∧ getK r "user_notes_private" = none ∧
        getK r "user_notes_public" = none ∧
        getK r "user_notes_private_visible" = none ∧
        getK r "user_notes_public_visible" = none) ∧
    (∀ (l : JObj) (wOk : Bool) (h n t : String) (pres : Option String)
        (fs0 : FsState) (r : JObj),
        hasK l "spec" = true →
        (pngAfterParse (.obj l) wOk h n t pres fs0).written = some r →
        getK r "user_notes" = none ∧ getK r "user_notes_private" = none ∧
        getK r "user_notes_public" = none ∧
        getK r "user_notes_private_visible" = none ∧
        getK r "user_notes_public_visible" = none) := by
  constructor
  · intro l wOk h n t pres fs1 r hs hw
    have hr := jsonAfterParse_written_spec l wOk h n t pres fs1 r hs hw
    subst hr
    refine ⟨?_, ?_, ?_, ?_, ?_⟩ <;>
      · rw [getK_stampUpload_of_ne _ _ _ _ _ (by decide) (by decide) (by decide)]
        exact getK_unsetPrivateFields_of_private _ _ (by decide)
  · intro l wOk h n t pres fs0 r hs hw
    obtain ⟨s, rfl⟩ := pngAfterParse_written_spec l wOk h n t pres fs0 r hs hw
    refine ⟨?_, ?_, ?_, ?_, ?_⟩ <;>
      · rw [getK_stampUpload_of_ne _ _ _ _ _ (by decide) (by decide) (by decide)]
        exact getK_unsetPrivateFields_of_private _ _ (by decide)

/-- Claim C4 witness: a concrete V2 json payload carrying `user_notes`;
the written record no longer has the field. -/
theorem spec_C4_privacyScrubApplied_witness :
    getK [("spec", Json.str "chara_card_v2"), ("name", Json.str "B"),
        ("create_date", Json.str "2024"), ("uploader", Json.str "Alice"),
        ("uploader_handle", Json.str "alice")] "user_notes" = none :=
  (spec_C4_privacyScrubApplied.1
    [("spec", Json.str "chara_card_v2"), ("user_notes", Json.str "secret"),
      ("name", Json.str "B")]
    true "alice" "Alice" "2024" none ⟨false, 1, false⟩ _ rfl rfl).1

/-! ### Claim C5: avatar-processor fallback termination
(`writeCharacterData` / `getInputImage`, router lines 260-315) -/

/-- Crop rectangle with the optional resize flag. -/
structure Crop where
  x : Int
  y : Int
  width : Int
  height : Int
  wantResize : Bool

/-- Modelled from the spec: the path of the static default avatar
resource (`DEFAULT_AVATAR_PATH` from `constants.js`, not under the
provided sources). -/
def defaultAvatarPath : String := "public/img/ai4.png"

def strEndsWith (s suff : String) : Bool := suff.data.isSuffixOf s.data

/-- Function `getInputImage` from `writeCharacterData`: decode the input (buffer
via `parseImageBuffer`, path via `tryReadImage`); on failure, when the
input was a `.png` path, re-read the original file's bytes and reprocess
them; when that also fails (or the input was not such a path), substitute
the raw bytes of the static default avatar.  `decodeBuf`, `decodePath`
and `readFileBin` are oracles for Jimp decoding (including crop/resize
errors) and the file system. -/
def getInputImage
    (decodeBuf : List Nat → Option Crop → Option (List Nat))
    (decodePath : String → Option Crop → Option (List Nat))
    (readFileBin : String → Option (List Nat))
    (input : String ⊕ List Nat) (crop : Option Crop) : Option (List Nat) :=
  let primary :=
    match input with
    | .inl p => decodePath p crop
    | .inr buf => decodeBuf buf crop
  match primary with
  | some img => some img
  | none =>
    match input with
    | .inl p =>
      if strEndsWith p ".png" then
        match readFileBin p with
        | some orig =>
          match decodeBuf orig crop with
          | some img => some img
          | none => readFileBin defaultAvatarPath
        | none => readFileBin defaultAvatarPath
      else readFileBin defaultAvatarPath
    | .inr _ => readFileBin defaultAvatarPath

/-- Claim C5: whenever the default avatar resource exists, `getInputImage`
returns image bytes for every input, every decode oracle and every crop —
no image-processing failure escapes the fallback chain; and when a `.png`
path input fails to decode but its re-read original bytes do decode, that
reprocessed image (not the default avatar) is returned. -/
theorem spec_C5_fallbackTermination
    (decodeBuf : List Nat → Option Crop → Option (List Nat))
    (decodePath : String → Option Crop → Option (List Nat))
    (readFileBin : String → Option (List Nat))
    (input : String ⊕ List Nat) (crop : Option Crop) (d : List Nat)
    (hdef : readFileBin defaultAvatarPath = some d) :
    (∃ img, getInputImage decodeBuf decodePath readFileBin input crop = some img) ∧
    (∀ p orig img, input = .inl p → decodePath p crop = none →
      strEndsWith p ".png" = true → readFileBin p = some orig →
      decodeBuf orig crop = some img →
      getInputImage decodeBuf decodePath readFileBin input crop = some img) := by
  constructor
  · unfold getInputImage
    rcases input with p | buf
    · rcases hp : decodePath p crop with _ | img
      · simp only [hp]
        by_cases hpng : strEndsWith p ".png" = true
        · simp only [hpng, if_true]
          rcases hr : readFileBin p with _ | orig
          · simp only [hr]
            exact ⟨d, hdef⟩
          · simp only [hr]
            rcases hb : decodeBuf orig crop with _ | img2
            · simp only [hb]
              exact ⟨d, hdef⟩
            · simp only [hb]
              exact ⟨img2, rfl⟩
        · simp only [Bool.not_eq_true] at hpng
          simp only [hpng, Bool.false_eq_true, if_false]
          exact ⟨d, hdef⟩
      · simp only [hp]
        exact ⟨img, rfl⟩
    · rcases hb : decodeBuf buf crop with _ | img
      · simp only [hb]
        exact ⟨d, hdef⟩
      · simp only [hb]
        exact ⟨img, rfl⟩
  · intro p orig img hin hfail hpng hread hdec
    subst hin
    unfold getInputImage
    simp only [hfail, hpng, if_true, hread, hdec]

/-- Claim C5 witness: decoding fails everywhere, the default avatar
exists, and the processor still returns bytes. -/
theorem spec_C5_fallbackTermination_witness :
    ∃ img, getInputImage (fun _ _ => none) (fun _ _ => none) (fun _ => some [7])
      (Sum.inl "card.png") none = some img :=
  (spec_C5_fallbackTermination (fun _ _ => none) (fun _ _ => none)
    (fun _ => some [7]) (Sum.inl "card.png") none [7] rfl).1

/-! ### Claim C9: the listing (`processCharacter`, router lines 374-425,
and the `/all` route, lines 672-683) -/

/-- Replacement `item.replace` with `.png` and the empty string: removal of the first occurrence of the
substring `.png` (not extension stripping). -/
def replaceFirstPng : List Char → List Char
  | [] => []
  | c :: rest =>
    if ['.', 'p', 'n', 'g'].isPrefixOf (c :: rest) then rest.drop 3
    else c :: replaceFirstPng rest

def stubNameOf (item : String) : String := ⟨replaceFirstPng item.data⟩

/-- Outcome of `processCharacter` for one stored file: a decoded object
entry (with the mutations applied), an array result (whose `name` read
is `undefined`), or the catch-branch stub. -/
inductive PCResult where
  | entry (rec : JObj)
  | arrEntry
  | stub (name : String)

/-- The degraded stub built in the catch branch of `processCharacter`. -/
def stubChar (nm : String) : JObj :=
  [("date_added", .num 0), ("name", .str nm), ("uploader", .str "Unknown"),
   ("uploader_handle", .str "unknown")]

/-- Function `processCharacter`: decode and JSON-parse the stored artifact
(`decode` is the combined oracle; `none` covers both failures), mutate
the object with `avatar`, `json_data`, `date_added`, defaulted
`create_date`, `uploader`, `uploader_handle`, `description`, `tags`; any
throw (including the strict-mode property assignment on a parsed
primitive) lands in the catch branch, which returns the stub. -/
def processCharacter (decode : String → Option (String × Json))
    (ctimeMs : String → Rat) (nowOf : String → String) (item : String) : PCResult :=
  match decode item with
  | none => .stub (stubNameOf item)
  | some (raw, .obj l) =>
    let l1 := setK l "avatar" (.str item)
    let l2 := setK l1 "json_data" (.str raw)
    let l3 := setK l2 "date_added" (.num (ctimeMs item))
    let l4 := setK l3 "create_date" (jsOrJ (getK l3 "create_date") (.str (nowOf item)))
    let l5 := setK l4 "uploader" (jsOrJ (getK l4 "uploader") (.str "Unknown"))
    let l6 := setK l5 "uploader_handle" (jsOrJ (getK l5 "uploader_handle") (.str "unknown"))
    let l7 := setK l6 "description" (jsOrJ (getK l6 "description") (.str ""))
    let l8 := setK l7 "tags" (jsOrJ (getK l7 "tags") (.arr []))
    .entry l8
  | some (_, .arr _) => .arrEntry
  | some _ => .stub (stubNameOf item)

/-- The `name` the `/all` route filters on (`c.name` truthiness). -/
def entryName : PCResult → Option Json
  | .entry l => getK l "name"
  | .arrEntry => none
  | .stub nm => some (.str nm)

def pcToRec : PCResult → JObj
  | .entry l => l
  | .stub nm => stubChar nm
  | .arrEntry => []

/-- The `/all` route: each `.png` file processed independently, entries
with a falsy `name` dropped. -/
def listAllChars (decode : String → Option (String × Json))
    (ctimeMs : String → Rat) (nowOf : String → String)
    (files : List String) : List JObj :=
  (((files.filter (fun f => strEndsWith f ".png")).map
      (processCharacter decode ctimeMs nowOf)).filter
    (fun pc => jsTruthyOpt (entryName pc))).map pcToRec

/-- Claim C9, counterexample: for the stored file `x.pngy.png` with a
failing decode, the listing's stub name is `xy.png` — the first
occurrence of `.png` removed from the middle of the name — and not the
file name minus its extension, `x.pngy`. -/
theorem spec_C9_counterexample :
    listAllChars (fun _ => none) (fun _ => 0) (fun _ => "") ["x.pngy.png"] =
      [stubChar "xy.png"] ∧ "xy.png" ≠ "x.pngy" := by
  constructor
  · rfl
  · decide

theorem processCharacter_entry_name (decode : String → Option (String × Json))
    (ctimeMs : String → Rat) (nowOf : String → String) (item raw : String)
    (l : JObj) (hdec : decode item = some (raw, .obj l)) :
    entryName (processCharacter decode ctimeMs nowOf item) = getK l "name" := by
  unfold processCharacter
  rw [hdec]
  simp only [entryName]
  rw [getK_setK_of_ne _ _ _ _ (by decide), getK_setK_of_ne _ _ _ _ (by decide),
    getK_setK_of_ne _ _ _ _ (by decide), getK_setK_of_ne _ _ _ _ (by decide),
    getK_setK_of_ne _ _ _ _ (by decide), getK_setK_of_ne _ _ _ _ (by decide),
    getK_setK_of_ne _ _ _ _ (by decide), getK_setK_of_ne _ _ _ _ (by decide)]

/-- Claim C9 (amended): each stored artifact is decoded independently;
an artifact whose decode or JSON-parse fails appears in the listing as
the degraded stub (`date_added` 0, uploader `Unknown`, handle `unknown`)
whose name is the file name with its first `.png` occurrence removed —
provided that derived name is non-empty, since the route drops falsy
names — while every artifact decoding to an object with a truthy `name`
appears decoded; no artifact's failure affects the others. -/
theorem spec_C9_listingIsolation (decode : String → Option (String × Json))
    (ctimeMs : String → Rat) (nowOf : String → String)
    (files : List String) (item : String)
    (hmem : item ∈ files) (hpng : strEndsWith item ".png" = true) :
    (decode item = none → stubNameOf item ≠ "" →
      stubChar (stubNameOf item) ∈ listAllChars decode ctimeMs nowOf files) ∧
    (∀ raw l, decode item = some (raw, .obj l) →
      jsTruthyOpt (getK l "name") = true →
      pcToRec (processCharacter decode ctimeMs nowOf item) ∈
        listAllChars decode ctimeMs nowOf files) := by
  have h1 : processCharacter decode ctimeMs nowOf item ∈
      (files.filter (fun f => strEndsWith f ".png")).map
        (processCharacter decode ctimeMs nowOf) :=
    List.mem_map_of_mem _ (List.mem_filter.mpr ⟨hmem, hpng⟩)
  constructor
  · intro hdec hnm
    have hpc : processCharacter decode ctimeMs nowOf item = .stub (stubNameOf item) := by
      unfold processCharacter
      rw [hdec]
    have h2 : jsTruthyOpt (entryName (processCharacter decode ctimeMs nowOf item)) = true := by
      rw [hpc]
      simp [entryName, jsTruthyOpt, jsTruthy, hnm]
    have h3 : processCharacter decode ctimeMs nowOf item ∈
        ((files.filter (fun f => strEndsWith f ".png")).map
          (processCharacter decode ctimeMs nowOf)).filter
            (fun pc => jsTruthyOpt (entryName pc)) :=
      List.mem_filter.mpr ⟨h1, h2⟩
    have h4 := List.mem_map_of_mem pcToRec h3
    rw [hpc] at h4
    exact h4
  · intro raw l hdec hname
    have h2 : jsTruthyOpt (entryName (processCharacter decode ctimeMs nowOf item)) = true := by
      rw [processCharacter_entry_name decode ctimeMs nowOf item raw l hdec]
      exact hname
    have h3 : processCharacter decode ctimeMs nowOf item ∈
        ((files.filter (fun f => strEndsWith f ".png")).map
          (processCharacter decode ctimeMs nowOf)).filter
            (fun pc => jsTruthyOpt (entryName pc)) :=
      List.mem_filter.mpr ⟨h1, h2⟩
    exact List.mem_map_of_mem pcToRec h3

/-- Claim C9 witness: one corrupt artifact next to one healthy artifact;
the corrupt one appears as its stub, the healthy one decoded. -/
theorem spec_C9_listingIsolation_witness :
    stubChar (stubNameOf "a.png") ∈
      listAllChars (fun f => if f = "b.png" then some ("", .obj [("name", .str "B")]) else none)
        (fun _ => 0) (fun _ => "") ["a.png", "b.png"] :=
  (spec_C9_listingIsolation
    (fun f => if f = "b.png" then some ("", .obj [("name", .str "B")]) else none)
    (fun _ => 0) (fun _ => "") ["a.png", "b.png"] "a.png"
    (by decide) (by decide)).1 rfl (by decide)

/-! ### Claim C10: the delete route (router lines 794-838) -/

def jsStrictEqStrOpt (o : Option Json) (s : String) : Bool :=
  match o with
  | some v => jsStrictEqStr v s
  | none => false

/-- The `uploader_handle` the delete route reads off `processCharacter`'s
result: the mutated object's field for a decoded object, and the string
`unknown` for the stub and for the array case (whose mutation assigned
exactly that default). -/
def pcUploaderHandle : PCResult → Option Json
  | .entry l => getK l "uploader_handle"
  | .arrEntry => some (.str "unknown")
  | .stub _ => some (.str "unknown")

/-- The uploader handle actually recorded in the artifact's embedded
metadata, when there is one. -/
def recordedUploaderHandle (art : Option (String × Json)) : Option String :=
  match art with
  | some (_, .obj l) =>
    match getK l "uploader_handle" with
    | some (.str s) => some s
    | _ => none
  | _ => none

inductive DelResp where
  | badRequest
  | notFound
  | forbidden
  | deleted
deriving DecidableEq

/-- Reading a stored artifact: the disk maps file names to their decode
outcome; a missing file reads as a failure. -/
def diskDecode (disk : List (String × Option (String × Json))) (f : String) :
    Option (String × Json) :=
  match findVal disk f with
  | some art => art
  | none => none

/-- The `/delete` route: name required, existence checked first (404),
then `processCharacter` is consulted and only an admin or a requester
whose handle strictly equals the effective `uploader_handle` may unlink
the file. -/
def deleteRoute (disk : List (String × Option (String × Json)))
    (ctimeMs : String → Rat) (nowOf : String → String)
    (reqName : Option String) (handle : String) (admin : Bool) :
    DelResp × List (String × Option (String × Json)) :=
  match reqName with
  | none => (.badRequest, disk)
  | some nm =>
    if nm = "" then (.badRequest, disk)
    else
      match findVal disk (nm ++ ".png") with
      | none => (.notFound, disk)
      | some _ =>
        let info := processCharacter (diskDecode disk) ctimeMs nowOf (nm ++ ".png")
        if !admin && !(jsStrictEqStrOpt (pcUploaderHandle info) handle) then
          (.forbidden, disk)
        else (.deleted, disk.filter (fun p => p.1 ≠ nm ++ ".png"))

/-- Claim C10, counterexample: an artifact whose metadata cannot be
decoded records no uploader handle at all, yet a non-admin requester
whose handle is the literal string `unknown` deletes it — the route
compares against the stub's defaulted handle, not only against a handle
recorded in the embedded metadata. -/
theorem spec_C10_counterexample :
    deleteRoute [("x.png", none)] (fun _ => 0) (fun _ => "") (some "x")
        "unknown" false = (.deleted, []) ∧
    recordedUploaderHandle none = none := by
  constructor
  · rfl
  · rfl

/-- Claim C10 (amended): a request for a nonexistent name is answered
NotFound before any permission check; a non-admin whose handle differs
from the effective uploader handle (the recorded `uploader_handle` when
the metadata decodes to an object with a truthy value, the default
`unknown` otherwise) is refused and the disk is unchanged; and a delete
happens only for an admin or a requester matching that effective
handle. -/
theorem spec_C10_deleteAuthorization (disk : List (String × Option (String × Json)))
    (ctimeMs : String → Rat) (nowOf : String → String)
    (nm handle : String) (admin : Bool) (hnm : nm ≠ "") :
    (findVal disk (nm ++ ".png") = none →
      deleteRoute disk ctimeMs nowOf (some nm) handle admin = (.notFound, disk)) ∧
    (∀ art, findVal disk (nm ++ ".png") = some art → admin = false →
      jsStrictEqStrOpt (pcUploaderHandle
        (processCharacter (diskDecode disk) ctimeMs nowOf (nm ++ ".png"))) handle = false →
      deleteRoute disk ctimeMs nowOf (some nm) handle admin = (.forbidden, disk)) ∧
    ((deleteRoute disk ctimeMs nowOf (some nm) handle admin).1 = .deleted →
      findVal disk (nm ++ ".png") ≠ none ∧
      (admin = true ∨ jsStrictEqStrOpt (pcUploaderHandle
        (processCharacter (diskDecode disk) ctimeMs nowOf (nm ++ ".png"))) handle = true)) := by
  refine ⟨?_, ?_, ?_⟩
  · intro hnone
    simp only [deleteRoute]
    rw [if_neg hnm, hnone]
  · intro art hart hadm heq
    simp only [deleteRoute]
    rw [if_neg hnm, hart]
    simp only [hadm, heq, Bool.not_false, Bool.and_self, if_true]
  · intro hdel
    simp only [deleteRoute] at hdel
    rw [if_neg hnm] at hdel
    rcases hart : findVal disk (nm ++ ".png") with _ | art
    · rw [hart] at hdel
      exact absurd hdel (by simp)
    · rw [hart] at hdel
      constructor
      · simp [hart]
      · by_cases hadm : admin
        · exact Or.inl hadm
        · right
          by_cases heq : jsStrictEqStrOpt (pcUploaderHandle
              (processCharacter (diskDecode disk) ctimeMs nowOf (nm ++ ".png"))) handle = true
          · exact heq
          · exfalso
            simp only [Bool.not_eq_true] at heq
            simp only [heq, hadm, Bool.not_false, Bool.and_self, if_true] at hdel
            exact absurd hdel (by simp)

/-- Claim C10 witness: a non-admin, non-uploader requester is refused and
the artifact stays on disk. -/
theorem spec_C10_deleteAuthorization_witness :
    deleteRoute [("x.png", some ("", .obj [("uploader_handle", Json.str "alice")]))]
      (fun _ => 0) (fun _ => "") (some "x") "bob" false =
      (.forbidden, [("x.png", some ("", .obj [("uploader_handle", Json.str "alice")]))]) :=
  (spec_C10_deleteAuthorization
    [("x.png", some ("", .obj [("uploader_handle", Json.str "alice")]))]
    (fun _ => 0) (fun _ => "") "x" "bob" false (by decide)).2.1
    (some ("", .obj [("uploader_handle", Json.str "alice")])) rfl rfl (by decide)
